import Mathlib

/-!
# Shortlink service (`server.js`): data model, request handlers, properties

The service keeps one SQL table `links` and answers four routes.  The
embedding below follows `server.js` statement by statement.

Environment, taken as inputs of the requests:
* `validUrl.isUri` (package `valid-url`) is a parameter `isUri : String → Bool`
  (`true` when the library returns the string, `false` when it returns
  `undefined`);
* `res.redirect(url)` of Express answers status 302 with the header
  `Location: encodeUrl(url)` (package `encodeurl`); `encodeUrl` is a parameter
  `encodeUrl : String → String`;
* `nanoid(6)` is a per-request stream `nanoid : Nat → String`; `nanoid k` is
  the value of the `k`-th call made while the request is handled;
* `CURRENT_TIMESTAMP` is the field `now` of the request, in seconds (the
  column holds `YYYY-MM-DD HH:MM:SS`, whose text order is the order of the
  seconds it denotes).

The SQL engine is modelled by its relational meaning: the table is the list
of its rows in rowid order, `id` and `clicks` are natural numbers, and
`saveDatabase` (a whole-file snapshot of the table) always succeeds.
Request bodies are typed as the interface documents them: `url` and
`customCode` are strings or absent.
-/

namespace Shortlink

/-! ## Data model -/

/-- One row of the table `links` (columns in declaration order). -/
structure Link where
  id : Nat
  short_code : String
  original_url : String
  created_at : Nat
  clicks : Nat
deriving DecidableEq, Repr

/-- The database: the rows of `links` in rowid order, and the counter that
`AUTOINCREMENT` keeps in `sqlite_sequence` (largest rowid ever used). -/
structure Db where
  links : List Link
  seq : Nat
deriving DecidableEq, Repr

/-- Startup (`initDatabase`): load the file when there is one, otherwise a new database;
`CREATE TABLE IF NOT EXISTS` leaves an existing table as it is. -/
def initDatabase (file : Option Db) : Db :=
  match file with
  | some db => db
  | none => { links := [], seq := 0 }

/-! ## SQL statements used by the handlers -/

/-- Query `db.exec('SELECT * FROM links WHERE short_code = ?', [code])`: sql.js
returns no result set when no row matches, else one result set holding the
matching rows. -/
def selectByCode (db : Db) (code : String) : List (List Link) :=
  match db.links.filter (fun l => l.short_code == code) with
  | [] => []
  | r :: rs => [r :: rs]

/-- The test `existing.length > 0 && existing[0].values.length > 0`. -/
def hasRows : List (List Link) → Bool
  | [] => false
  | values :: _ => decide (values.length > 0)

/-- Largest rowid in the table (0 for the empty table). -/
def maxRowid (rows : List Link) : Nat :=
  rows.foldr (fun l m => max l.id m) 0

/-- Statement `db.run('INSERT INTO links (short_code, original_url) VALUES (?, ?)')`:
the `UNIQUE` constraint on `short_code` aborts the statement (the table is
left as it was); otherwise a row is appended with the next `AUTOINCREMENT`
id, `created_at = CURRENT_TIMESTAMP` and `clicks = 0`. -/
def insertLink (db : Db) (shortCode url : String) (now : Nat) : Except String Db :=
  if db.links.any (fun l => l.short_code == shortCode) then
    .error "UNIQUE constraint failed: links.short_code"
  else
    let newId := max db.seq (maxRowid db.links) + 1
    .ok { links := db.links ++
            [{ id := newId, short_code := shortCode, original_url := url,
               created_at := now, clicks := 0 }],
          seq := newId }

/-- Statement `db.run('UPDATE links SET clicks = clicks + 1 WHERE short_code = ?')`. -/
def incrementClicks (db : Db) (shortCode : String) : Db :=
  { db with links := db.links.map (fun l =>
      if l.short_code == shortCode then { l with clicks := l.clicks + 1 } else l) }

/-- Sort condition of `ORDER BY created_at DESC`. -/
def newerOrSame (a b : Link) : Prop := b.created_at ≤ a.created_at

instance : DecidableRel newerOrSame := fun a b => Nat.decLe b.created_at a.created_at

instance : IsTotal Link newerOrSame :=
  ⟨fun a b => Nat.le_total b.created_at a.created_at⟩

instance : IsTrans Link newerOrSame :=
  ⟨fun _ _ _ h1 h2 => Nat.le_trans h2 h1⟩

/-- Query `db.exec('SELECT * FROM links ORDER BY created_at DESC LIMIT 100')`: the
rows sorted by `created_at`, larger first, rows with equal `created_at` in
rowid order (with `LIMIT` the engine sorts on the key `(created_at DESC,
scan sequence number)`), cut to the first 100; no result set when the table
is empty. -/
def selectRecent (db : Db) : List (List Link) :=
  match (db.links.insertionSort newerOrSame).take 100 with
  | [] => []
  | r :: rs => [r :: rs]

/-! ## Requests and responses -/

/-- What a handler sends back. -/
inductive Response where
  /-- Answer `res.json({ success: true, shortUrl, shortCode, originalUrl })` -/
  | created (shortUrl shortCode originalUrl : String)
  /-- Answer `res.status(status).json({ error })` -/
  | error (status : Nat) (error : String)
  /-- Answer `res.json({ shortCode, originalUrl, clicks, createdAt })` -/
  | stats (shortCode originalUrl : String) (clicks createdAt : Nat)
  /-- Answer `res.json(links)` -/
  | links (links : List Link)
  /-- Answer `res.redirect(originalUrl)`: status 302 and the `Location` header -/
  | redirect (location : String)
  /-- Answer `res.status(404).sendFile('public/404.html')` -/
  | notFoundPage
deriving DecidableEq, Repr

/-- HTTP status of a response (`res.json` answers 200, `res.redirect` 302). -/
def Response.status : Response → Nat
  | .created _ _ _ => 200
  | .error status _ => status
  | .stats _ _ _ _ => 200
  | .links _ => 200
  | .redirect _ => 302
  | .notFoundPage => 404

/-- A request to one of the four routes, with the environment it is served in. -/
inductive Request where
  | postShorten (url customCode : Option String) (protocol host : String)
      (nanoid : Nat → String) (now : Nat)
  | getStats (shortCode : String)
  | getLinks
  | getRedirect (shortCode : String)

/-! ## Handlers -/

/-- JavaScript truthiness of a string-or-absent value. -/
def truthy : Option String → Bool
  | none => false
  | some s => s != ""

/-- One character of the class `[a-zA-Z0-9-_]`. -/
def isCodeChar (c : Char) : Bool :=
  (decide ('a' ≤ c) && decide (c ≤ 'z')) || (decide ('A' ≤ c) && decide (c ≤ 'Z')) ||
    (decide ('0' ≤ c) && decide (c ≤ '9')) || c == '-' || c == '_'

/-- The test `/^[a-zA-Z0-9-_]+$/.test(customCode)`: one or more characters,
each of the class, from the start to the end of the string. -/
def codePatternTest (s : String) : Bool :=
  !s.toList.isEmpty && s.toList.all isCodeChar

/-- The loop `while (attempts < 5) { ...; if (no row) break; shortCode =
nanoid(6); attempts++ }`.  `fuel` is `5 - attempts`; the result is the final
`shortCode` and `attempts`. -/
def retryLoop (db : Db) (nanoid : Nat → String) : Nat → Nat → String → String × Nat
  | 0, attempts, shortCode => (shortCode, attempts)
  | fuel + 1, attempts, shortCode =>
    if hasRows (selectByCode db shortCode) then
      retryLoop db nanoid fuel (attempts + 1) (nanoid (attempts + 1))
    else (shortCode, attempts)

/-- The `else` branch of `if (customCode)`: first draw, then the loop. -/
def generateCode (db : Db) (nanoid : Nat → String) : String × Nat :=
  retryLoop db nanoid 5 0 (nanoid 0)

/-- The `try { INSERT; saveDatabase(); res.json(..) } catch { 500 }` block. -/
def insertAndRespond (db : Db) (shortCode url protocol host : String) (now : Nat) :
    Db × Response :=
  match insertLink db shortCode url now with
  | .ok db1 => (db1, .created (protocol ++ "://" ++ host ++ "/" ++ shortCode) shortCode url)
  | .error _ => (db, .error 500 "Failed to create shortlink")

/-- Route `app.post('/api/shorten', ...)`. -/
def postShorten (isUri : String → Bool) (db : Db) (url customCode : Option String)
    (protocol host : String) (nanoid : Nat → String) (now : Nat) : Db × Response :=
  match url with
  | none => (db, .error 400 "Invalid URL provided")
  | some u =>
    if !truthy (some u) || !isUri u then (db, .error 400 "Invalid URL provided")
    else
      match customCode with
      | some cc =>
        if truthy (some cc) then
          if !codePatternTest cc then
            (db, .error 400
              "Custom code can only contain letters, numbers, dashes, and underscores")
          else if hasRows (selectByCode db cc) then
            (db, .error 400 "Custom code already in use")
          else insertAndRespond db cc u protocol host now
        else insertAndRespond db (generateCode db nanoid).1 u protocol host now
      | none => insertAndRespond db (generateCode db nanoid).1 u protocol host now

/-- Route `app.get('/api/stats/:shortCode', ...)`. -/
def getStats (db : Db) (shortCode : String) : Db × Response :=
  match selectByCode db shortCode with
  | (row :: _) :: _ => (db, .stats row.short_code row.original_url row.clicks row.created_at)
  | _ => (db, .error 404 "Shortlink not found")

/-- Route `app.get('/api/links', ...)`. -/
def getLinks (db : Db) : Db × Response :=
  match selectRecent db with
  | [] => (db, .links [])
  | values :: _ => (db, .links values)

/-- Route `app.get('/:shortCode', ...)`.  The answer `res.redirect(originalUrl)`
carries the header `Location: encodeUrl(originalUrl)`. -/
def getRedirect (encodeUrl : String → String) (db : Db) (shortCode : String) :
    Db × Response :=
  match selectByCode db shortCode with
  | (link :: _) :: _ => (incrementClicks db shortCode, .redirect (encodeUrl link.original_url))
  | _ => (db, .notFoundPage)

/-- The router: one request against the current database. -/
def handle (isUri : String → Bool) (encodeUrl : String → String) (db : Db) :
    Request → Db × Response
  | .postShorten url customCode protocol host nanoid now =>
    postShorten isUri db url customCode protocol host nanoid now
  | .getStats shortCode => getStats db shortCode
  | .getLinks => getLinks db
  | .getRedirect shortCode => getRedirect encodeUrl db shortCode

/-- The database after serving a sequence of requests one after the other. -/
def run (isUri : String → Bool) (encodeUrl : String → String) (db : Db) : List Request → Db
  | [] => db
  | r :: rs => run isUri encodeUrl (handle isUri encodeUrl db r).1 rs

/-- Lookup (`findByCode`): the Link a lookup of `code` returns (first row of the
`SELECT ... WHERE short_code = ?` result), if any. -/
def findByCode (db : Db) (code : String) : Option Link :=
  match selectByCode db code with
  | (row :: _) :: _ => some row
  | _ => none

/-- Number of `GET /code` requests in a sequence of requests. -/
def countRedirects (code : String) : List Request → Nat
  | [] => 0
  | .getRedirect c :: rs => (if c = code then 1 else 0) + countRedirects code rs
  | _ :: rs => countRedirects code rs

/-- A concrete URI check for the examples: a scheme of letters followed by
`:` at the start of the string. -/
def schemeCheck (u : String) : Bool :=
  match u.toList.span Char.isAlpha with
  | (scheme, ':' :: _) => !scheme.isEmpty
  | _ => false

/-- A generator that returns the same code at every draw. -/
def constGen (code : String) : Nat → String := fun _ => code

/-! ## The two library functions, as the packages define them

`valid-url` and `encodeurl` (called by `res.redirect` of Express) are not part
of the repository; the handlers take them as parameters.  The definitions
below give their behaviour on strings, for the statements at concrete URLs. -/

/-- A hexadecimal digit, either case (`[0-9a-f]` under the flag `i`). -/
def isHexDigit (c : Char) : Bool :=
  (decide ('0' ≤ c) && decide (c ≤ '9')) || (decide ('a' ≤ c) && decide (c ≤ 'f')) ||
    (decide ('A' ≤ c) && decide (c ≤ 'F'))

/-- An ASCII letter or digit. -/
def isAsciiAlnum (c : Char) : Bool :=
  (decide ('a' ≤ c) && decide (c ≤ 'z')) || (decide ('A' ≤ c) && decide (c ≤ 'Z')) ||
    (decide ('0' ≤ c) && decide (c ≤ '9'))

/-- Characters outside which valid-url refuses a string: the class of the
test `/[^a-z0-9\:\/\?\#\[\]\@\!\$\&\'\(\)\*\+\,\;\=\.\-\_\~\%]/i`. -/
def validUrl.isLegalChar (c : Char) : Bool :=
  isAsciiAlnum c || ":/?#[]@!$&'()*+,;=.-_~%".toList.contains c

/-- The test `/%[^0-9a-f]/i`: somewhere a `%` is followed by a character
that is no hexadecimal digit. -/
def validUrl.percentNonHex : List Char → Bool
  | [] => false
  | c :: rest =>
    (c == '%' && (match rest with
      | d :: _ => !isHexDigit d
      | [] => false)) || validUrl.percentNonHex rest

/-- The test `/%[0-9a-f](:?[^0-9a-f]|$)/i`: somewhere a `%` is followed by
one hexadecimal digit and then by a character that is none, or by the end of
the string (the optional `:` of the pattern is itself no hexadecimal digit,
so it adds no match). -/
def validUrl.percentOneHex : List Char → Bool
  | [] => false
  | c :: rest =>
    (c == '%' && (match rest with
      | d :: [] => isHexDigit d
      | d :: e :: _ => isHexDigit d && !isHexDigit e
      | [] => false)) || validUrl.percentOneHex rest

/-- The split of `splitUri`,
`/(?:([^:\/?#]+):)?(?:\/\/([^\/?#]*))?([^?#]*)(?:\?([^#]*))?(?:#(.*))?/`:
scheme, authority and path (query and fragment play no part in the check). -/
def validUrl.splitUri (value : List Char) :
    Option (List Char) × Option (List Char) × List Char :=
  let schemeSplit : Option (List Char) × List Char :=
    match value.span (fun c => !":/?#".toList.contains c) with
    | (s :: ss, ':' :: rest) => (some (s :: ss), rest)
    | _ => (none, value)
  let authoritySplit : Option (List Char) × List Char :=
    match schemeSplit.2 with
    | '/' :: '/' :: rest =>
      (some (rest.takeWhile (fun c => !"/?#".toList.contains c)),
        rest.dropWhile (fun c => !"/?#".toList.contains c))
    | rest => (none, rest)
  (schemeSplit.1, authoritySplit.1,
    authoritySplit.2.takeWhile (fun c => !"?#".toList.contains c))

/-- The test `/^[a-z][a-z0-9\+\-\.]*$/` on the scheme in lower case. -/
def validUrl.schemeTest (scheme : List Char) : Bool :=
  match scheme.map Char.toLower with
  | [] => false
  | c :: rest =>
    (decide ('a' ≤ c) && decide (c ≤ 'z')) &&
      rest.all (fun d => (decide ('a' ≤ d) && decide (d ≤ 'z')) ||
        (decide ('0' ≤ d) && decide (d ≤ '9')) || d == '+' || d == '-' || d == '.')

/-- The function `isUri` of valid-url (`is_iri`): `true` when it returns the
URI, `false` when it returns `undefined`. -/
def validUrl.isUri (value : String) : Bool :=
  if value.toList.isEmpty then false
  else if value.toList.any (fun c => !validUrl.isLegalChar c) then false
  else if validUrl.percentNonHex value.toList then false
  else if validUrl.percentOneHex value.toList then false
  else
    match validUrl.splitUri value.toList with
    | (none, _, _) => false
    | (some scheme, authority, path) =>
      -- `if (!(scheme && scheme.length && path.length >= 0)) return;`
      if scheme.isEmpty then false
      else
        let hasAuthority : Bool :=
          match authority with
          | some (_ :: _) => true
          | _ => false
        let pathOk : Bool :=
          if hasAuthority then
            -- the path must be empty or begin with `/`
            (match path with
              | [] => true
              | c :: _ => c == '/')
          else
            -- the path must not start with `//`
            (match path with
              | '/' :: '/' :: _ => false
              | _ => true)
        pathOk && validUrl.schemeTest scheme

/-- Characters that the pattern of encodeUrl does not pick up by themselves:
`[\x21\x25\x26-\x3B\x3D\x3F-\x5B\x5D\x5F\x61-\x7A\x7E]`. -/
def express.isKeptChar (c : Char) : Bool :=
  c == '!' || c == '%' || (decide ('&' ≤ c) && decide (c ≤ ';')) || c == '=' ||
    (decide ('?' ≤ c) && decide (c ≤ '[')) || c == ']' || c == '_' ||
    (decide ('a' ≤ c) && decide (c ≤ 'z')) || c == '~'

/-- UTF-8 bytes of a code point. -/
def utf8Bytes (n : Nat) : List Nat :=
  if n < 128 then [n]
  else if n < 2048 then [192 + n / 64, 128 + n % 64]
  else if n < 65536 then [224 + n / 4096, 128 + n / 64 % 64, 128 + n % 64]
  else [240 + n / 262144, 128 + n / 4096 % 64, 128 + n / 64 % 64, 128 + n % 64]

/-- One byte as `%XX`, upper-case hexadecimal. -/
def percentByte (b : Nat) : List Char :=
  ['%', "0123456789ABCDEF".toList.getD (b / 16) '0',
    "0123456789ABCDEF".toList.getD (b % 16) '0']

/-- The standard function `encodeURI` on one character: letters, digits and
`; / ? : @ & = + $ , - _ . ! ~ * ' ( ) #` stay, every other character becomes
the `%XX` of its UTF-8 bytes. -/
def encodeURIChar (c : Char) : List Char :=
  if isAsciiAlnum c || ";/?:@&=+$,-_.!~*'()#".toList.contains c then [c]
  else (utf8Bytes c.toNat).flatMap percentByte

/-- The replacement `url.replace(ENCODE_CHARS_REGEXP, encodeURI)`, read from
left to right.  The pattern picks up a character outside the kept class, or a
`%` together with what follows it when that is no two hexadecimal digits (one
other character; one hexadecimal digit and one other character; or the end of
the string); what is picked up goes through `encodeURI`, the rest stays. -/
def express.encodeChars : List Char → List Char
  | [] => []
  | c :: rest =>
    if c == '%' then
      match rest with
      | [] => encodeURIChar c
      | d :: rest1 =>
        if !isHexDigit d then
          encodeURIChar c ++ encodeURIChar d ++ express.encodeChars rest1
        else
          match rest1 with
          | [] => c :: d :: []
          | e :: rest2 =>
            if !isHexDigit e then
              encodeURIChar c ++ encodeURIChar d ++ encodeURIChar e ++
                express.encodeChars rest2
            else c :: d :: e :: express.encodeChars rest2
    else if express.isKeptChar c then c :: express.encodeChars rest
    else encodeURIChar c ++ express.encodeChars rest

/-- The function `encodeUrl` of the package encodeurl, which `res.redirect`
applies to its argument before it sets the `Location` header. -/
def express.encodeUrl (url : String) : String :=
  String.mk (express.encodeChars url.toList)

/-! ## Predicates and sample data of the statements -/

/-- The code `POST /api/shorten` passes to `INSERT` once the request is past
the validation steps. -/
def chosenCode (db : Db) (customCode : Option String) (nanoid : Nat → String) : String :=
  match customCode with
  | some cc => if truthy (some cc) then cc else (generateCode db nanoid).1
  | none => (generateCode db nanoid).1

/-- Relation between a Link before a request and the same Link after it:
every column but `clicks` is the same, and `clicks` is the same or one more. -/
def sameButClicks (a b : Link) : Prop :=
  b.id = a.id ∧ b.short_code = a.short_code ∧ b.original_url = a.original_url ∧
    b.created_at = a.created_at ∧ (b.clicks = a.clicks ∨ b.clicks = a.clicks + 1)

instance (a b : Link) : Decidable (sameButClicks a b) := by
  unfold sameButClicks
  infer_instance

/-- The code is the `short_code` of a Link of the table. -/
def codeInUse (db : Db) (code : String) : Prop := code ∈ db.links.map Link.short_code

instance (db : Db) (code : String) : Decidable (codeInUse db code) :=
  inferInstanceAs (Decidable (code ∈ db.links.map Link.short_code))

/-- The answers to a sequence of requests served one after the other. -/
def responses (isUri : String → Bool) (encodeUrl : String → String) (db : Db) :
    List Request → List Response
  | [] => []
  | r :: rs => (handle isUri encodeUrl db r).2 :: responses isUri encodeUrl (handle isUri encodeUrl db r).1 rs

/-- The rows `GET /api/links` answers with: the first 100 of the table sorted
by `created_at`, larger first. -/
def recentRows (db : Db) : List Link :=
  (db.links.insertionSort newerOrSame).take 100

/-- A custom code of 65 characters, each of the allowed class. -/
def code65 : String := String.mk (List.replicate 65 'a')

/-- A shorten request with a custom code, served at second `now`. -/
def customRequest (code : String) (now : Nat) : Request :=
  .postShorten (some "https://example.com/a/b?x=1") (some code) "http" "localhost:3000"
    (constGen "Ab3_-x") now

/-- A shorten request without a custom code whose draws are all `code`. -/
def autoRequest (code : String) (now : Nat) : Request :=
  .postShorten (some "https://example.com/a/b?x=1") none "http" "localhost:3000"
    (constGen code) now

/-- The table after one Link with code `abc` was created on the empty table. -/
def dbWithAbc : Db :=
  run schemeCheck express.encodeUrl (initDatabase none) [customRequest "abc" 3]

/-! ## Lemmas on the SQL statements -/

theorem any_code_iff (rows : List Link) (c : String) :
    rows.any (fun l => l.short_code == c) = true ↔ c ∈ rows.map Link.short_code := by
  simp only [List.any_eq_true, List.mem_map, beq_iff_eq]

theorem hasRows_selectByCode (db : Db) (c : String) :
    hasRows (selectByCode db c) = db.links.any (fun l => l.short_code == c) := by
  unfold selectByCode
  cases h : db.links.filter (fun l => l.short_code == c) with
  | nil =>
    have h2 : db.links.any (fun l => l.short_code == c) = false := by
      rw [List.any_eq_false]
      intro l hl hc
      have : l ∈ db.links.filter (fun l => l.short_code == c) := List.mem_filter.2 ⟨hl, hc⟩
      rw [h] at this
      cases this
    simp [hasRows, h2]
  | cons r rs =>
    have hr : r ∈ db.links.filter (fun l => l.short_code == c) := by rw [h]; simp
    have h2 : db.links.any (fun l => l.short_code == c) = true :=
      List.any_eq_true.2 ⟨r, (List.mem_filter.1 hr).1, (List.mem_filter.1 hr).2⟩
    simp [hasRows, h2]

theorem hasRows_iff (db : Db) (c : String) :
    hasRows (selectByCode db c) = true ↔ c ∈ db.links.map Link.short_code := by
  rw [hasRows_selectByCode, any_code_iff]

theorem selectByCode_of_not_mem (db : Db) (c : String)
    (h : c ∉ db.links.map Link.short_code) : selectByCode db c = [] := by
  unfold selectByCode
  have : db.links.filter (fun l => l.short_code == c) = [] := by
    rw [List.filter_eq_nil_iff]
    intro l hl hc
    exact h (List.mem_map.2 ⟨l, hl, by simpa using hc⟩)
  rw [this]

theorem insertLink_of_not_mem (db : Db) (c u : String) (now : Nat)
    (h : c ∉ db.links.map Link.short_code) :
    insertLink db c u now = .ok
      { links := db.links ++
          [{ id := max db.seq (maxRowid db.links) + 1, short_code := c,
             original_url := u, created_at := now, clicks := 0 }],
        seq := max db.seq (maxRowid db.links) + 1 } := by
  unfold insertLink
  rw [← any_code_iff] at h
  simp [h]

theorem insertLink_of_mem (db : Db) (c u : String) (now : Nat)
    (h : c ∈ db.links.map Link.short_code) :
    insertLink db c u now = .error "UNIQUE constraint failed: links.short_code" := by
  unfold insertLink
  rw [← any_code_iff] at h
  simp [h]

theorem incrementClicks_codes (db : Db) (c : String) :
    (incrementClicks db c).links.map Link.short_code = db.links.map Link.short_code := by
  unfold incrementClicks
  simp only [List.map_map]
  apply List.map_congr_left
  intro l _
  simp only [Function.comp]
  split <;> rfl

/-! ## Lemmas on the handlers -/

theorem insertAndRespond_cases (db : Db) (c u p h : String) (now : Nat) :
    (c ∈ db.links.map Link.short_code ∧
        insertAndRespond db c u p h now = (db, .error 500 "Failed to create shortlink")) ∨
    (c ∉ db.links.map Link.short_code ∧
        insertAndRespond db c u p h now =
          ({ links := db.links ++
              [{ id := max db.seq (maxRowid db.links) + 1, short_code := c,
                 original_url := u, created_at := now, clicks := 0 }],
             seq := max db.seq (maxRowid db.links) + 1 },
           .created (p ++ "://" ++ h ++ "/" ++ c) c u)) := by
  by_cases hc : c ∈ db.links.map Link.short_code
  · left
    refine ⟨hc, ?_⟩
    unfold insertAndRespond
    rw [insertLink_of_mem db c u now hc]
  · right
    refine ⟨hc, ?_⟩
    unfold insertAndRespond
    rw [insertLink_of_not_mem db c u now hc]

/-- Every outcome of `POST /api/shorten`: an error answer with the database
untouched, or one appended row and the `created` answer. -/
theorem postShorten_cases (isUri : String → Bool) (db : Db) (url cc : Option String)
    (p h : String) (g : Nat → String) (now : Nat) :
    (∃ st msg, postShorten isUri db url cc p h g now = (db, .error st msg)) ∨
    (∃ u, url = some u ∧ isUri u = true ∧ u ≠ "" ∧
        chosenCode db cc g ∉ db.links.map Link.short_code ∧
        postShorten isUri db url cc p h g now =
          ({ links := db.links ++
              [{ id := max db.seq (maxRowid db.links) + 1, short_code := chosenCode db cc g,
                 original_url := u, created_at := now, clicks := 0 }],
             seq := max db.seq (maxRowid db.links) + 1 },
           .created (p ++ "://" ++ h ++ "/" ++ chosenCode db cc g) (chosenCode db cc g) u)) := by
  unfold postShorten
  cases url with
  | none => exact Or.inl ⟨_, _, rfl⟩
  | some u =>
    simp only
    split
    · exact Or.inl ⟨_, _, rfl⟩
    · rename_i hv
      have hv1 : u ≠ "" ∧ isUri u = true := by
        simp only [truthy, Bool.or_eq_true, Bool.not_eq_true', not_or, Bool.not_eq_false,
          bne_iff_ne, ne_eq] at hv
        simpa using hv
      have key : ∀ c, c = chosenCode db cc g →
          (∃ st msg, insertAndRespond db c u p h now = (db, .error st msg)) ∨
          (∃ u1, some u = some u1 ∧ isUri u1 = true ∧ u1 ≠ "" ∧
            chosenCode db cc g ∉ db.links.map Link.short_code ∧
            insertAndRespond db c u p h now =
              ({ links := db.links ++
                  [{ id := max db.seq (maxRowid db.links) + 1,
                     short_code := chosenCode db cc g,
                     original_url := u1, created_at := now, clicks := 0 }],
                 seq := max db.seq (maxRowid db.links) + 1 },
               .created (p ++ "://" ++ h ++ "/" ++ chosenCode db cc g)
                 (chosenCode db cc g) u1)) := by
        intro c hc
        subst hc
        rcases insertAndRespond_cases db (chosenCode db cc g) u p h now with ⟨_, h1⟩ | ⟨h0, h1⟩
        · exact Or.inl ⟨_, _, h1⟩
        · exact Or.inr ⟨u, rfl, hv1.2, hv1.1, h0, h1⟩
      cases cc with
      | none => exact key _ rfl
      | some c =>
        simp only
        split
        · rename_i ht
          split
          · exact Or.inl ⟨_, _, rfl⟩
          · split
            · exact Or.inl ⟨_, _, rfl⟩
            · exact key _ (by simp [chosenCode, ht])
        · rename_i ht
          exact key _ (by simp [chosenCode, ht])

theorem toList_eq_nil_iff (s : String) : s.toList = [] ↔ s = "" := by
  constructor
  · intro h
    exact String.ext (by simpa using h)
  · rintro rfl
    rfl

theorem codePatternTest_iff (s : String) :
    codePatternTest s = true ↔ s ≠ "" ∧ ∀ ch ∈ s.toList, isCodeChar ch = true := by
  unfold codePatternTest
  simp only [Bool.and_eq_true, Bool.not_eq_true', List.isEmpty_eq_false, List.all_eq_true, ne_eq,
    ← toList_eq_nil_iff]

theorem getStats_fst (db : Db) (c : String) : (getStats db c).1 = db := by
  unfold getStats
  split <;> rfl

theorem getLinks_fst (db : Db) : (getLinks db).1 = db := by
  unfold getLinks
  split <;> rfl

theorem selectByCode_of_mem (db : Db) (c : String) (h : c ∈ db.links.map Link.short_code) :
    ∃ l rest, db.links.filter (fun l => l.short_code == c) = l :: rest ∧
      selectByCode db c = [l :: rest] ∧ l ∈ db.links ∧ l.short_code = c := by
  unfold selectByCode
  cases hf : db.links.filter (fun l => l.short_code == c) with
  | nil =>
    exfalso
    obtain ⟨l, hl, hc⟩ := List.mem_map.1 h
    have : l ∈ db.links.filter (fun l => l.short_code == c) :=
      List.mem_filter.2 ⟨hl, by simpa using hc⟩
    rw [hf] at this
    cases this
  | cons l rest =>
    have hl : l ∈ db.links.filter (fun l => l.short_code == c) := by rw [hf]; simp
    exact ⟨l, rest, rfl, rfl, (List.mem_filter.1 hl).1, by simpa using (List.mem_filter.1 hl).2⟩

theorem getRedirect_of_not_mem (encodeUrl : String → String) (db : Db) (c : String)
    (h : c ∉ db.links.map Link.short_code) :
    getRedirect encodeUrl db c = (db, .notFoundPage) := by
  unfold getRedirect
  rw [selectByCode_of_not_mem db c h]

theorem getRedirect_of_mem (encodeUrl : String → String) (db : Db) (c : String)
    (h : c ∈ db.links.map Link.short_code) :
    ∃ l rest, db.links.filter (fun l => l.short_code == c) = l :: rest ∧
      getRedirect encodeUrl db c =
        (incrementClicks db c, .redirect (encodeUrl l.original_url)) := by
  obtain ⟨l, rest, hf, hs, -, -⟩ := selectByCode_of_mem db c h
  refine ⟨l, rest, hf, ?_⟩
  unfold getRedirect
  rw [hs]

/-- One request keeps the short codes of the table pairwise different. -/
theorem handle_codes_nodup (isUri : String → Bool) (encodeUrl : String → String) (db : Db) (r : Request)
    (h : (db.links.map Link.short_code).Nodup) :
    ((handle isUri encodeUrl db r).1.links.map Link.short_code).Nodup := by
  cases r with
  | postShorten url cc p hst g now =>
    simp only [handle]
    rcases postShorten_cases isUri db url cc p hst g now with ⟨st, msg, he⟩ | ⟨u, -, -, -, hn, he⟩
    · rw [he]; exact h
    · rw [he]
      simp only [List.map_append, List.map_cons, List.map_nil]
      rw [List.nodup_append]
      refine ⟨h, List.nodup_singleton _, ?_⟩
      intro a ha hb
      simp only [List.mem_singleton] at hb
      subst hb
      exact hn ha
  | getStats c => simp only [handle, getStats_fst]; exact h
  | getLinks => simp only [handle, getLinks_fst]; exact h
  | getRedirect c =>
    simp only [handle]
    by_cases hc : c ∈ db.links.map Link.short_code
    · obtain ⟨l, rest, -, he⟩ := getRedirect_of_mem encodeUrl db c hc
      rw [he, incrementClicks_codes]
      exact h
    · rw [getRedirect_of_not_mem encodeUrl db c hc]
      exact h

theorem run_codes_nodup (isUri : String → Bool) (encodeUrl : String → String) (requests : List Request) :
    ∀ db : Db, (db.links.map Link.short_code).Nodup →
      ((run isUri encodeUrl db requests).links.map Link.short_code).Nodup := by
  induction requests with
  | nil => intro db h; exact h
  | cons r rs ih =>
    intro db h
    exact ih _ (handle_codes_nodup isUri encodeUrl db r h)

/-! ## The properties -/

/-- C1. Short-code uniqueness is an invariant of the store: starting from the
empty table, after any finite sequence of requests to the four routes, no two
Links of the table have the same `short_code`; the rows are listed in rowid
order, so this reads: for every two positions, the codes differ.  The
sequence is arbitrary, so it covers the requests whose generated candidates
all collide. -/
theorem short_code_unique_invariant (isUri : String → Bool) (encodeUrl : String → String) (requests : List Request) :
    (run isUri encodeUrl (initDatabase none) requests).links.Pairwise
      (fun a b => a.short_code ≠ b.short_code) := by
  have h := run_codes_nodup isUri encodeUrl requests (initDatabase none) (by simp [initDatabase])
  exact List.pairwise_map.1 h

/-- C4. A valid URL with a non-empty custom code that passes the character
check and is already the `short_code` of a Link: the answer is status 400 with
the error `Custom code already in use`, and the database is the one before
the request. -/
theorem custom_code_taken (isUri : String → Bool) (encodeUrl : String → String) (db : Db) (u cc p h : String)
    (g : Nat → String) (now : Nat) (hne : u ≠ "") (hu : isUri u = true)
    (hcc : cc ≠ "") (hchars : ∀ ch ∈ cc.toList, isCodeChar ch = true)
    (hused : cc ∈ db.links.map Link.short_code) :
    handle isUri encodeUrl db (.postShorten (some u) (some cc) p h g now) =
        (db, .error 400 "Custom code already in use") ∧
      (handle isUri encodeUrl db (.postShorten (some u) (some cc) p h g now)).2.status = 400 ∧
      (handle isUri encodeUrl db (.postShorten (some u) (some cc) p h g now)).1.links = db.links ∧
      (handle isUri encodeUrl db (.postShorten (some u) (some cc) p h g now)).1.links.length =
        db.links.length := by
  have hp : codePatternTest cc = true := (codePatternTest_iff cc).2 ⟨hcc, hchars⟩
  have hr : hasRows (selectByCode db cc) = true := (hasRows_iff db cc).2 hused
  have key : handle isUri encodeUrl db (.postShorten (some u) (some cc) p h g now) =
      (db, .error 400 "Custom code already in use") := by
    simp [handle, postShorten, truthy, hne, hu, hcc, hp, hr]
  rw [key]
  exact ⟨rfl, rfl, rfl, rfl⟩

/-- C5. A code that is the `short_code` of no Link: `GET /code` answers the
not-found page with status 404 and the database after the request is the
database before it. -/
theorem redirect_unknown_code (isUri : String → Bool) (encodeUrl : String → String) (db : Db) (c : String)
    (hc : c ∉ db.links.map Link.short_code) :
    (handle isUri encodeUrl db (.getRedirect c)).2 = .notFoundPage ∧
      (handle isUri encodeUrl db (.getRedirect c)).2.status = 404 ∧
      (handle isUri encodeUrl db (.getRedirect c)).1 = db := by
  simp only [handle]
  rw [getRedirect_of_not_mem encodeUrl db c hc]
  exact ⟨rfl, rfl, rfl⟩

/-- C6. Custom-code validity: with a valid URL, `POST /api/shorten` answers
status 400 `Custom code can only contain letters, numbers, dashes, and
underscores` exactly when `customCode` is non-empty and has a character that
is not a letter, digit, hyphen or underscore; the empty string is handled as
an absent `customCode` (auto-generation); `my-link_1` passes the check and
`bad code!` does not. -/
theorem custom_code_charset (isUri : String → Bool) (encodeUrl : String → String) (db : Db) (u customCode p h : String)
    (g : Nat → String) (now : Nat) (hne : u ≠ "") (hu : isUri u = true) :
    ((handle isUri encodeUrl db (.postShorten (some u) (some customCode) p h g now)).2 =
        .error 400 "Custom code can only contain letters, numbers, dashes, and underscores" ↔
      customCode ≠ "" ∧ ∃ ch ∈ customCode.toList, isCodeChar ch = false) ∧
    handle isUri encodeUrl db (.postShorten (some u) (some "") p h g now) =
      handle isUri encodeUrl db (.postShorten (some u) none p h g now) ∧
    handle isUri encodeUrl db (.postShorten (some u) none p h g now) =
      insertAndRespond db (generateCode db g).1 u p h now ∧
    codePatternTest "my-link_1" = true ∧ codePatternTest "bad code!" = false := by
  refine ⟨?_, ?_, ?_, by decide, by decide⟩
  · by_cases hcc : customCode = ""
    · subst hcc
      have h1 : handle isUri encodeUrl db (.postShorten (some u) (some "") p h g now) =
          insertAndRespond db (generateCode db g).1 u p h now := by
        simp [handle, postShorten, truthy, hne, hu]
      rw [h1]
      constructor
      · intro he
        rcases insertAndRespond_cases db (generateCode db g).1 u p h now with ⟨_, h2⟩ | ⟨_, h2⟩
        · rw [h2] at he
          simp at he
        · rw [h2] at he
          simp at he
      · rintro ⟨h2, -⟩
        exact absurd rfl h2
    · by_cases hp : codePatternTest customCode = true
      · have hall := ((codePatternTest_iff customCode).1 hp).2
        constructor
        · intro he
          exfalso
          by_cases hr : hasRows (selectByCode db customCode) = true
          · have h1 : handle isUri encodeUrl db (.postShorten (some u) (some customCode) p h g now) =
                (db, .error 400 "Custom code already in use") := by
              simp [handle, postShorten, truthy, hne, hu, hcc, hp, hr]
            rw [h1] at he
            simp only [Response.error.injEq] at he
            exact absurd he.2 (by decide)
          · have h1 : handle isUri encodeUrl db (.postShorten (some u) (some customCode) p h g now) =
                insertAndRespond db customCode u p h now := by
              simp [handle, postShorten, truthy, hne, hu, hcc, hp, hr]
            rw [h1] at he
            rcases insertAndRespond_cases db customCode u p h now with ⟨_, h2⟩ | ⟨_, h2⟩
            · rw [h2] at he
              simp at he
            · rw [h2] at he
              simp at he
        · rintro ⟨-, ch, hch, hbad⟩
          rw [hall ch hch] at hbad
          cases hbad
      · have h1 : handle isUri encodeUrl db (.postShorten (some u) (some customCode) p h g now) =
            (db, .error 400
              "Custom code can only contain letters, numbers, dashes, and underscores") := by
          simp [handle, postShorten, truthy, hne, hu, hcc, hp]
        rw [h1]
        refine ⟨fun _ => ⟨hcc, ?_⟩, fun _ => rfl⟩
        by_contra hcon
        apply hp
        rw [codePatternTest_iff]
        refine ⟨hcc, ?_⟩
        intro ch hch
        by_contra hb
        exact hcon ⟨ch, hch, by simpa using hb⟩
  · simp [handle, postShorten, truthy, hne, hu]
  · simp [handle, postShorten, truthy, hne, hu]

/-! ### Lookup after creation, and click counting -/

theorem findByCode_of_filter (db : Db) (c : String) (l : Link) (rest : List Link)
    (hf : db.links.filter (fun x => x.short_code == c) = l :: rest) :
    findByCode db c = some l := by
  unfold findByCode selectByCode
  rw [hf]

theorem filter_append_new (rows : List Link) (c : String) (new : Link)
    (hc : c ∉ rows.map Link.short_code) (hn : new.short_code = c) :
    (rows ++ [new]).filter (fun x => x.short_code == c) = [new] := by
  have h1 : rows.filter (fun x => x.short_code == c) = [] := by
    rw [List.filter_eq_nil_iff]
    intro l hl hlc
    exact hc (List.mem_map.2 ⟨l, hl, by simpa using hlc⟩)
  rw [List.filter_append, h1]
  simp [List.filter, hn]

theorem mem_codes_of_filter (rows : List Link) (c : String) (l : Link) (rest : List Link)
    (hf : rows.filter (fun x => x.short_code == c) = l :: rest) :
    c ∈ rows.map Link.short_code ∧ l.short_code = c := by
  have hl : l ∈ rows.filter (fun x => x.short_code == c) := by rw [hf]; simp
  have h1 := List.mem_filter.1 hl
  have h2 : l.short_code = c := by simpa using h1.2
  exact ⟨List.mem_map.2 ⟨l, h1.1, h2⟩, h2⟩

theorem filter_incrementClicks (db : Db) (c c1 : String) :
    (incrementClicks db c1).links.filter (fun x => x.short_code == c) =
      (db.links.filter (fun x => x.short_code == c)).map (fun l =>
        if l.short_code == c1 then { l with clicks := l.clicks + 1 } else l) := by
  unfold incrementClicks
  simp only
  rw [List.filter_map]
  congr 1
  apply List.filter_congr
  intro l _
  simp only [Function.comp]
  split <;> rfl

/-- One request against a table where exactly the row `l` has code `c`. -/
theorem handle_filter_single (isUri : String → Bool) (encodeUrl : String → String) (db : Db) (r : Request) (c : String)
    (l : Link) (hf : db.links.filter (fun x => x.short_code == c) = [l]) :
    (handle isUri encodeUrl db r).1.links.filter (fun x => x.short_code == c) =
      [{ l with clicks := l.clicks + countRedirects c [r] }] := by
  obtain ⟨hmem, hlc⟩ := mem_codes_of_filter db.links c l [] hf
  cases r with
  | postShorten url cc p hst g now =>
    simp only [handle, countRedirects]
    rcases postShorten_cases isUri db url cc p hst g now with ⟨st, msg, he⟩ | ⟨u, -, -, -, hn, he⟩
    · rw [he]; exact hf
    · rw [he]
      simp only
      rw [List.filter_append, hf]
      have hne : (chosenCode db cc g == c) = false := by
        simpa using fun h : chosenCode db cc g = c => hn (h ▸ hmem)
      simp [List.filter, hne]
  | getStats c1 => simp only [handle, getStats_fst, countRedirects]; exact hf
  | getLinks => simp only [handle, getLinks_fst, countRedirects]; exact hf
  | getRedirect c1 =>
    simp only [handle, countRedirects]
    by_cases hc : c1 ∈ db.links.map Link.short_code
    · obtain ⟨l1, rest, -, he⟩ := getRedirect_of_mem encodeUrl db c1 hc
      rw [he]
      simp only
      rw [filter_incrementClicks, hf]
      by_cases hcc : c1 = c
      · subst hcc
        simp [hlc]
      · have : ¬ (l.short_code = c1) := fun h => hcc (h ▸ hlc)
        simp [hcc, this]
    · rw [getRedirect_of_not_mem encodeUrl db c1 hc]
      have hcc : c1 ≠ c := fun h => hc (h ▸ hmem)
      simp [hcc, hf]

theorem run_filter_single (isUri : String → Bool) (encodeUrl : String → String) (c : String) (rs : List Request) :
    ∀ (db : Db) (l : Link), db.links.filter (fun x => x.short_code == c) = [l] →
      (run isUri encodeUrl db rs).links.filter (fun x => x.short_code == c) =
        [{ l with clicks := l.clicks + countRedirects c rs }] := by
  induction rs with
  | nil => intro db l hf; simpa [run, countRedirects] using hf
  | cons r rs ih =>
    intro db l hf
    have h1 := handle_filter_single isUri encodeUrl db r c l hf
    have h2 := ih _ _ h1
    simp only [run]
    rw [h2]
    have : countRedirects c (r :: rs) = countRedirects c [r] + countRedirects c rs := by
      cases r <;> simp [countRedirects]
    simp only [this, Nat.add_assoc]

/-- A successful `POST /api/shorten`: the answer carries the URL of the
request, and in the new table exactly one row has the answered code. -/
theorem created_row (isUri : String → Bool) (encodeUrl : String → String) (db : Db) (url cc : Option String)
    (p h : String) (g : Nat → String) (now : Nat) (shortUrl c orig : String)
    (hres : (handle isUri encodeUrl db (.postShorten url cc p h g now)).2 = .created shortUrl c orig) :
    url = some orig ∧ c = chosenCode db cc g ∧ c ∉ db.links.map Link.short_code ∧
      (handle isUri encodeUrl db (.postShorten url cc p h g now)).1 =
        { links := db.links ++
            [{ id := max db.seq (maxRowid db.links) + 1, short_code := c,
               original_url := orig, created_at := now, clicks := 0 }],
          seq := max db.seq (maxRowid db.links) + 1 } := by
  simp only [handle] at hres ⊢
  rcases postShorten_cases isUri db url cc p h g now with ⟨st, msg, he⟩ | ⟨u, hu, -, -, hn, he⟩
  · rw [he] at hres
    cases hres
  · rw [he] at hres ⊢
    simp only [Response.created.injEq] at hres
    obtain ⟨-, h2, h3⟩ := hres
    subst h2 h3
    exact ⟨hu, rfl, hn, rfl⟩

/-- After a successful `POST /api/shorten` the row of the answered code is
the appended one, and it is the only row with that code. -/
theorem created_row_filter (isUri : String → Bool) (encodeUrl : String → String) (db : Db) (url cc : Option String)
    (p h : String) (g : Nat → String) (now : Nat) (shortUrl c orig : String)
    (hres : (handle isUri encodeUrl db (.postShorten url cc p h g now)).2 = .created shortUrl c orig) :
    ∃ new : Link, new.short_code = c ∧ new.original_url = orig ∧ new.clicks = 0 ∧
      new.created_at = now ∧ url = some orig ∧
      (handle isUri encodeUrl db (.postShorten url cc p h g now)).1.links = db.links ++ [new] ∧
      (handle isUri encodeUrl db (.postShorten url cc p h g now)).1.links.filter
        (fun x => x.short_code == c) = [new] := by
  obtain ⟨h1, -, h3, h4⟩ := created_row isUri encodeUrl db url cc p h g now shortUrl c orig hres
  refine ⟨{ id := max db.seq (maxRowid db.links) + 1, short_code := c,
            original_url := orig, created_at := now, clicks := 0 },
          rfl, rfl, rfl, rfl, h1, ?_, ?_⟩
  · rw [h4]
  · rw [h4]
    exact filter_append_new db.links c _ h3 rfl

/-- C2, as the code has it.  Round trip: for every database and every URL
`u` accepted by the validity check, when `POST /api/shorten` with `url = u`
(custom code present or not) answers success with `shortCode = c`, the
answer's `originalUrl` is `u`, a lookup of `c` in the resulting database
returns a Link whose `original_url` is exactly `u`, and `GET /c` served next
answers a redirect (302) whose `Location` is `encodeUrl(u)`, the URL as
`res.redirect` encodes it; this is exactly `u` whenever `encodeUrl` leaves
`u` as it is. -/
theorem shorten_round_trip (isUri : String → Bool) (encodeUrl : String → String) (db : Db)
    (u : String) (customCode : Option String) (p h : String) (g : Nat → String) (now : Nat)
    (shortUrl c originalUrl : String) (hne : u ≠ "") (hu : isUri u = true)
    (hres : (handle isUri encodeUrl db (.postShorten (some u) customCode p h g now)).2 =
      .created shortUrl c originalUrl) :
    originalUrl = u ∧
      (∃ l, findByCode (handle isUri encodeUrl db
            (.postShorten (some u) customCode p h g now)).1 c = some l ∧
          l.short_code = c ∧ l.original_url = u) ∧
      (handle isUri encodeUrl
          (handle isUri encodeUrl db (.postShorten (some u) customCode p h g now)).1
          (.getRedirect c)).2 = .redirect (encodeUrl u) ∧
      (handle isUri encodeUrl
          (handle isUri encodeUrl db (.postShorten (some u) customCode p h g now)).1
          (.getRedirect c)).2.status = 302 ∧
      (encodeUrl u = u →
        (handle isUri encodeUrl
          (handle isUri encodeUrl db (.postShorten (some u) customCode p h g now)).1
          (.getRedirect c)).2 = .redirect u) := by
  obtain ⟨new, hc, ho, -, -, h1, -, hf⟩ :=
    created_row_filter isUri encodeUrl db (some u) customCode p h g now shortUrl c
      originalUrl hres
  have hou : originalUrl = u := (Option.some.inj h1).symm
  subst hou
  obtain ⟨hmem, -⟩ := mem_codes_of_filter _ c _ [] hf
  obtain ⟨l, rest, hf2, he⟩ := getRedirect_of_mem encodeUrl _ c hmem
  have hl : l = new := by
    rw [hf] at hf2
    simp only [List.cons.injEq] at hf2
    exact hf2.1.symm
  subst hl
  have hred : (handle isUri encodeUrl
      (handle isUri encodeUrl db (.postShorten (some originalUrl) customCode p h g now)).1
      (.getRedirect c)).2 = .redirect (encodeUrl originalUrl) := by
    have : handle isUri encodeUrl
        (handle isUri encodeUrl db (.postShorten (some originalUrl) customCode p h g now)).1
        (.getRedirect c) = getRedirect encodeUrl
        (handle isUri encodeUrl db (.postShorten (some originalUrl) customCode p h g now)).1
        c := rfl
    rw [this, he, ho]
  refine ⟨rfl, ⟨l, findByCode_of_filter _ c _ [] hf, hc, ho⟩, hred, ?_, ?_⟩
  · rw [hred]
    rfl
  · intro hsame
    rw [hred, hsame]

/-- C2, as stated, fails: `http://example.com/100%` is accepted by the
validity check and `POST /api/shorten` with the custom code `p` succeeds on
the empty table, but `GET /p` served next redirects to
`http://example.com/100%25`, not to the URL of the request. -/
theorem redirect_not_exactly_url :
    validUrl.isUri "http://example.com/100%" = true ∧
      (handle validUrl.isUri express.encodeUrl (initDatabase none)
        (.postShorten (some "http://example.com/100%") (some "p") "http" "localhost:3000"
          (constGen "Ab3_-x") 7)).2 =
        .created "http://localhost:3000/p" "p" "http://example.com/100%" ∧
      (handle validUrl.isUri express.encodeUrl
        (handle validUrl.isUri express.encodeUrl (initDatabase none)
          (.postShorten (some "http://example.com/100%") (some "p") "http" "localhost:3000"
            (constGen "Ab3_-x") 7)).1
        (.getRedirect "p")).2 = .redirect "http://example.com/100%25" ∧
      (handle validUrl.isUri express.encodeUrl
        (handle validUrl.isUri express.encodeUrl (initDatabase none)
          (.postShorten (some "http://example.com/100%") (some "p") "http" "localhost:3000"
            (constGen "Ab3_-x") 7)).1
        (.getRedirect "p")).2 ≠ .redirect "http://example.com/100%" := by
  decide

/-- C3. Click counting is exact: the Link that a successful
`POST /api/shorten` creates has `clicks = 0`; after any sequence of later
requests, of which `n` are `GET /c` for its code `c` (the others being any
requests to the other routes or other codes), a lookup of `c` returns that
same Link with `clicks = n`; and one more `GET /c` answers a redirect (to
the encoded `original_url` of that Link) and leaves it with `clicks = n + 1`. -/
theorem click_count_exact (isUri : String → Bool) (encodeUrl : String → String) (db : Db) (url customCode : Option String)
    (p h : String) (g : Nat → String) (now : Nat) (shortUrl c originalUrl : String)
    (hres : (handle isUri encodeUrl db (.postShorten url customCode p h g now)).2 =
      .created shortUrl c originalUrl) :
    ∃ l0, findByCode (handle isUri encodeUrl db (.postShorten url customCode p h g now)).1 c = some l0 ∧
      l0.clicks = 0 ∧
      ∀ (rs : List Request) (n : Nat), countRedirects c rs = n →
        findByCode (run isUri encodeUrl (handle isUri encodeUrl db (.postShorten url customCode p h g now)).1 rs) c
            = some { l0 with clicks := n } ∧
          (handle isUri encodeUrl
              (run isUri encodeUrl (handle isUri encodeUrl db (.postShorten url customCode p h g now)).1 rs)
              (.getRedirect c)).2 = .redirect (encodeUrl l0.original_url) ∧
          findByCode (handle isUri encodeUrl
              (run isUri encodeUrl (handle isUri encodeUrl db (.postShorten url customCode p h g now)).1 rs)
              (.getRedirect c)).1 c = some { l0 with clicks := n + 1 } := by
  obtain ⟨new, -, -, h0, -, -, -, hf⟩ :=
    created_row_filter isUri encodeUrl db url customCode p h g now shortUrl c originalUrl hres
  refine ⟨new, findByCode_of_filter _ c _ [] hf, h0, ?_⟩
  intro rs n hn
  have hrun := run_filter_single isUri encodeUrl c rs _ _ hf
  have hstep := handle_filter_single isUri encodeUrl _ (.getRedirect c) c _ hrun
  simp only [h0, Nat.zero_add, hn] at hrun hstep
  refine ⟨findByCode_of_filter _ c _ [] hrun, ?_, ?_⟩
  · obtain ⟨hmem, -⟩ := mem_codes_of_filter _ c _ [] hrun
    obtain ⟨l, rest, hf2, he⟩ := getRedirect_of_mem encodeUrl _ c hmem
    simp only [handle] at hf2 he hrun ⊢
    rw [he]
    rw [hrun] at hf2
    simp only [List.cons.injEq] at hf2
    rw [← hf2.1]
  · have := findByCode_of_filter _ c _ [] hstep
    simpa [countRedirects] using this

/-! ### Frame: what a request leaves as it was -/

theorem forall₂_map_self (R : Link → Link → Prop) (f : Link → Link) (rows : List Link)
    (h : ∀ a ∈ rows, R a (f a)) : List.Forall₂ R rows (rows.map f) := by
  induction rows with
  | nil => exact List.Forall₂.nil
  | cons a rest ih =>
    exact List.Forall₂.cons (h a (by simp)) (ih (fun b hb => h b (by simp [hb])))

theorem sameButClicks_refl (a : Link) : sameButClicks a a :=
  ⟨rfl, rfl, rfl, rfl, Or.inl rfl⟩

theorem forall₂_sameButClicks_self (rows : List Link) :
    List.Forall₂ sameButClicks rows rows :=
  List.forall₂_same.2 (fun a _ => sameButClicks_refl a)

/-- C9. A Link is never deleted or updated except for its `clicks` counter.
For every database and every request: the table after the request is the
old rows, in place, each with the same `id`, `short_code`, `original_url` and
`created_at` and with `clicks` unchanged or larger by 1, followed by at most
one new row; so every Link present before is present afterwards.  `GET /c`
raises `clicks` of the rows with code `c` by 1 and leaves every other row
identical; a successful shorten appends exactly one Link and changes no
existing one; the two read-only routes and every error answer leave the
database as it was. -/
theorem links_frame (isUri : String → Bool) (encodeUrl : String → String) (db : Db) (r : Request) :
    (∃ kept added, (handle isUri encodeUrl db r).1.links = kept ++ added ∧
        List.Forall₂ sameButClicks db.links kept ∧ added.length ≤ 1) ∧
      (∀ a ∈ db.links, ∃ b ∈ (handle isUri encodeUrl db r).1.links, sameButClicks a b) ∧
      (∀ c, r = .getRedirect c →
        List.Forall₂ (fun a b => sameButClicks a b ∧ (a.short_code ≠ c → b = a) ∧
            (a.short_code = c → b = { a with clicks := a.clicks + 1 }))
          db.links (handle isUri encodeUrl db r).1.links) ∧
      (∀ shortUrl c orig, (handle isUri encodeUrl db r).2 = .created shortUrl c orig →
        ∃ new : Link, new.short_code = c ∧ new.original_url = orig ∧ new.clicks = 0 ∧
          (handle isUri encodeUrl db r).1.links = db.links ++ [new]) ∧
      (∀ c, r = .getStats c → (handle isUri encodeUrl db r).1 = db) ∧
      (r = .getLinks → (handle isUri encodeUrl db r).1 = db) ∧
      (∀ st msg, (handle isUri encodeUrl db r).2 = .error st msg → (handle isUri encodeUrl db r).1 = db) := by
  have hpos : ∃ kept added, (handle isUri encodeUrl db r).1.links = kept ++ added ∧
      List.Forall₂ sameButClicks db.links kept ∧ added.length ≤ 1 := by
    cases r with
    | postShorten url cc p hst g now =>
      simp only [handle]
      rcases postShorten_cases isUri db url cc p hst g now with ⟨st, msg, he⟩ | ⟨u, -, -, -, -, he⟩
      · rw [he]
        exact ⟨db.links, [], by simp, forall₂_sameButClicks_self _, by simp⟩
      · rw [he]
        exact ⟨db.links, _, rfl, forall₂_sameButClicks_self _, by simp⟩
    | getStats c =>
      simp only [handle, getStats_fst]
      exact ⟨db.links, [], by simp, forall₂_sameButClicks_self _, by simp⟩
    | getLinks =>
      simp only [handle, getLinks_fst]
      exact ⟨db.links, [], by simp, forall₂_sameButClicks_self _, by simp⟩
    | getRedirect c =>
      simp only [handle]
      by_cases hc : c ∈ db.links.map Link.short_code
      · obtain ⟨l, rest, -, he⟩ := getRedirect_of_mem encodeUrl db c hc
        rw [he]
        refine ⟨_, [], (List.append_nil _).symm, ?_, by simp⟩
        unfold incrementClicks
        apply forall₂_map_self
        intro a _
        split
        · exact ⟨rfl, rfl, rfl, rfl, Or.inr rfl⟩
        · exact sameButClicks_refl a
      · rw [getRedirect_of_not_mem encodeUrl db c hc]
        exact ⟨db.links, [], by simp, forall₂_sameButClicks_self _, by simp⟩
  refine ⟨hpos, ?_, ?_, ?_, ?_, ?_, ?_⟩
  · obtain ⟨kept, added, h1, h2, -⟩ := hpos
    intro a ha
    obtain ⟨n, hn, hget⟩ := List.mem_iff_getElem.1 ha
    have hlen := h2.length_eq
    have hn2 : n < kept.length := hlen ▸ hn
    refine ⟨kept[n], ?_, ?_⟩
    · rw [h1]
      exact List.mem_append_left _ (List.getElem_mem hn2)
    · have := List.forall₂_iff_get.1 h2
      have h3 := this.2 n hn hn2
      simp only [List.get_eq_getElem] at h3
      rw [hget] at h3
      exact h3
  · intro c hr
    subst hr
    simp only [handle]
    by_cases hc : c ∈ db.links.map Link.short_code
    · obtain ⟨l, rest, -, he⟩ := getRedirect_of_mem encodeUrl db c hc
      rw [he]
      unfold incrementClicks
      apply forall₂_map_self
      intro a _
      by_cases hac : a.short_code = c
      · have hb : (a.short_code == c) = true := by simpa using hac
        simp only [hb, if_true]
        exact ⟨⟨rfl, rfl, rfl, rfl, Or.inr rfl⟩, fun h => absurd hac h, fun _ => trivial⟩
      · have hb : (a.short_code == c) = false := by simpa using hac
        simp only [hb]
        exact ⟨sameButClicks_refl a, fun _ => rfl, fun h => absurd h hac⟩
    · rw [getRedirect_of_not_mem encodeUrl db c hc]
      refine List.forall₂_same.2 (fun a ha => ⟨sameButClicks_refl a, fun _ => rfl, fun h => ?_⟩)
      exact absurd (List.mem_map.2 ⟨a, ha, h⟩) hc
  · intro shortUrl c orig hres
    cases r with
    | postShorten url cc p hst g now =>
      obtain ⟨new, h1, h2, h3, -, -, h4, -⟩ :=
        created_row_filter isUri encodeUrl db url cc p hst g now shortUrl c orig hres
      exact ⟨new, h1, h2, h3, h4⟩
    | getStats c1 =>
      simp only [handle, getStats] at hres
      split at hres <;> cases hres
    | getLinks =>
      simp only [handle, getLinks] at hres
      split at hres <;> cases hres
    | getRedirect c1 =>
      simp only [handle, getRedirect] at hres
      split at hres <;> cases hres
  · intro c hr
    subst hr
    simp only [handle, getStats_fst]
  · intro hr
    subst hr
    simp only [handle, getLinks_fst]
  · intro st msg hres
    cases r with
    | postShorten url cc p hst g now =>
      simp only [handle] at hres ⊢
      rcases postShorten_cases isUri db url cc p hst g now with ⟨st1, msg1, he⟩ | ⟨u, -, -, -, -, he⟩
      · rw [he]
      · rw [he] at hres
        cases hres
    | getStats c1 => simp only [handle, getStats_fst]
    | getLinks => simp only [handle, getLinks_fst]
    | getRedirect c1 =>
      simp only [handle, getRedirect] at hres ⊢
      split at hres <;> cases hres

/-! ### Auto-generation -/

/-- Result of the retry loop entered with candidate `g a` after `a` attempts:
it stops at the first index `k ≥ a` whose candidate is unused, or at
`a + fuel` when none of the `fuel` checked candidates is unused. -/
theorem retryLoop_spec (db : Db) (g : Nat → String) :
    ∀ (fuel a : Nat), ∃ k, a ≤ k ∧ k ≤ a + fuel ∧
      retryLoop db g fuel a (g a) = (g k, k) ∧
      (∀ j, a ≤ j → j < k → codeInUse db (g j)) ∧
      (k < a + fuel → ¬ codeInUse db (g k)) := by
  intro fuel
  induction fuel with
  | zero =>
    intro a
    exact ⟨a, le_refl a, le_refl a, rfl, fun j h1 h2 => absurd h1 (by omega),
      fun h => absurd h (by omega)⟩
  | succ fuel ih =>
    intro a
    by_cases hr : hasRows (selectByCode db (g a)) = true
    · obtain ⟨k, h1, h2, h3, h4, h5⟩ := ih (a + 1)
      refine ⟨k, by omega, by omega, ?_, ?_, ?_⟩
      · simp only [retryLoop, hr, if_true]
        exact h3
      · intro j hj1 hj2
        by_cases hja : j = a
        · subst hja
          exact (hasRows_iff db (g j)).1 hr
        · exact h4 j (by omega) hj2
      · intro hk
        exact h5 (by omega)
    · refine ⟨a, le_refl a, by omega, ?_, fun j h1 h2 => absurd h1 (by omega), ?_⟩
      · simp only [retryLoop, hr]
        rfl
      · intro _ hin
        exact hr ((hasRows_iff db (g a)).2 hin)

theorem retryLoop_congr (db : Db) (g g1 : Nat → String) :
    ∀ (fuel a : Nat) (s : String), (∀ i, a < i → i ≤ a + fuel → g1 i = g i) →
      retryLoop db g1 fuel a s = retryLoop db g fuel a s := by
  intro fuel
  induction fuel with
  | zero => intro a s _; rfl
  | succ fuel ih =>
    intro a s hg
    simp only [retryLoop]
    split
    · rw [hg (a + 1) (by omega) (by omega)]
      exact ih (a + 1) _ (fun i h1 h2 => hg i (by omega) (by omega))
    · rfl

theorem generateCode_spec (db : Db) (g : Nat → String) :
    ∃ k, k ≤ 5 ∧ generateCode db g = (g k, k) ∧
      (∀ j, j < k → codeInUse db (g j)) ∧ (k < 5 → ¬ codeInUse db (g k)) := by
  obtain ⟨k, -, h2, h3, h4, h5⟩ := retryLoop_spec db g 5 0
  exact ⟨k, by omega, h3, fun j hj => h4 j (Nat.zero_le j) hj, fun hk => h5 (by omega)⟩

theorem postShorten_auto (isUri : String → Bool) (encodeUrl : String → String) (db : Db) (u : String)
    (customCode : Option String) (p h : String) (g : Nat → String) (now : Nat)
    (hne : u ≠ "") (hu : isUri u = true) (hcc : customCode = none ∨ customCode = some "") :
    handle isUri encodeUrl db (.postShorten (some u) customCode p h g now) =
      insertAndRespond db (generateCode db g).1 u p h now := by
  rcases hcc with rfl | rfl <;> simp [handle, postShorten, truthy, hne, hu]

/-- C10. Auto-generation with bounded retry.  With a valid URL and no custom
code (absent or empty): the handler makes at most six draws `g 0 .. g 5` (one
first draw and at most 5 regenerations: `attempts ≤ 5`, and the outcome does
not depend on later draws); the code passed to `INSERT` is the first of
`g 0 .. g 4` that is not in the table, or `g 5`, unchecked, when these five
are all in the table; the request succeeds with that code whenever one of the
six candidates is unused; and it answers status 500 `Failed to create
shortlink`, the database unchanged, exactly when all six are in the table. -/
theorem auto_generation_bounded_retry (isUri : String → Bool) (encodeUrl : String → String) (db : Db) (u : String)
    (customCode : Option String) (p h : String) (g : Nat → String) (now : Nat)
    (hne : u ≠ "") (hu : isUri u = true) (hcc : customCode = none ∨ customCode = some "") :
    (generateCode db g).2 + 1 ≤ 6 ∧
      (∀ g1 : Nat → String, (∀ i, i < 6 → g1 i = g i) →
        handle isUri encodeUrl db (.postShorten (some u) customCode p h g1 now) =
          handle isUri encodeUrl db (.postShorten (some u) customCode p h g now)) ∧
      handle isUri encodeUrl db (.postShorten (some u) customCode p h g now) =
        insertAndRespond db (generateCode db g).1 u p h now ∧
      ((∃ i, i < 5 ∧ (∀ j, j < i → codeInUse db (g j)) ∧ ¬ codeInUse db (g i) ∧
          generateCode db g = (g i, i)) ∨
        ((∀ j, j < 5 → codeInUse db (g j)) ∧ generateCode db g = (g 5, 5))) ∧
      ((∃ i, i < 6 ∧ ¬ codeInUse db (g i)) →
        (handle isUri encodeUrl db (.postShorten (some u) customCode p h g now)).2 =
            .created (p ++ "://" ++ h ++ "/" ++ (generateCode db g).1) (generateCode db g).1 u ∧
          ∃ new : Link, new.short_code = (generateCode db g).1 ∧ new.original_url = u ∧
            (handle isUri encodeUrl db (.postShorten (some u) customCode p h g now)).1.links =
              db.links ++ [new]) ∧
      ((handle isUri encodeUrl db (.postShorten (some u) customCode p h g now)).2 =
          .error 500 "Failed to create shortlink" ↔ ∀ i, i < 6 → codeInUse db (g i)) ∧
      ((∀ i, i < 6 → codeInUse db (g i)) →
        (handle isUri encodeUrl db (.postShorten (some u) customCode p h g now)).2.status = 500 ∧
          (handle isUri encodeUrl db (.postShorten (some u) customCode p h g now)).1 = db) := by
  have hauto := postShorten_auto isUri encodeUrl db u customCode p h g now hne hu hcc
  obtain ⟨k, hk5, hgen, hbefore, hfree⟩ := generateCode_spec db g
  have hcode : (generateCode db g).1 = g k := by rw [hgen]
  -- the inserted code is in use exactly when all six candidates are
  have hall : codeInUse db (g k) ↔ ∀ i, i < 6 → codeInUse db (g i) := by
    constructor
    · intro hin i hi
      have hk : k = 5 := by
        by_contra hne5
        exact hfree (by omega) hin
      subst hk
      by_cases hi5 : i = 5
      · subst hi5; exact hin
      · exact hbefore i (by omega)
    · intro hin
      exact hin k (by omega)
  refine ⟨by rw [hgen]; simp only; omega, ?_, hauto, ?_, ?_, ?_, ?_⟩
  · intro g1 hg1
    rw [hauto, postShorten_auto isUri encodeUrl db u customCode p h g1 now hne hu hcc]
    have : generateCode db g1 = generateCode db g := by
      unfold generateCode
      rw [hg1 0 (by omega)]
      exact retryLoop_congr db g g1 5 0 _ (fun i _ h2 => hg1 i (by omega))
    rw [this]
  · by_cases hk : k < 5
    · exact Or.inl ⟨k, hk, hbefore, hfree hk, hgen⟩
    · have hk5' : k = 5 := by omega
      subst hk5'
      exact Or.inr ⟨hbefore, hgen⟩
  · intro hex
    have hnot : ¬ codeInUse db (g k) := by
      obtain ⟨i, hi, hni⟩ := hex
      intro hin
      exact hni (hall.1 hin i hi)
    rw [hauto, hcode]
    rcases insertAndRespond_cases db (g k) u p h now with ⟨h1, -⟩ | ⟨-, h2⟩
    · exact absurd h1 hnot
    · rw [h2]
      exact ⟨rfl, _, rfl, rfl, rfl⟩
  · rw [hauto, hcode, ← hall]
    rcases insertAndRespond_cases db (g k) u p h now with ⟨h1, h2⟩ | ⟨h1, h2⟩
    · rw [h2]
      exact ⟨fun _ => h1, fun _ => rfl⟩
    · rw [h2]
      constructor
      · intro he
        cases he
      · intro hin
        exact absurd hin h1
  · intro hin
    rw [hauto, hcode]
    rcases insertAndRespond_cases db (g k) u p h now with ⟨h1, h2⟩ | ⟨h1, h2⟩
    · rw [h2]
      exact ⟨rfl, rfl⟩
    · exact absurd (hall.2 hin) h1

/-! ### Length of custom codes -/

theorem length_pos_of_ne_empty (s : String) (h : s ≠ "") : 1 ≤ s.length := by
  have h1 : s.toList ≠ [] := fun h2 => h ((toList_eq_nil_iff s).1 h2)
  have h2 : s.length = s.toList.length := rfl
  rw [h2]
  exact List.length_pos.2 h1

/-- C7, as the code has it.  For every database reached from the empty table
and every `POST /api/shorten` that succeeds with a user-supplied (non-empty)
custom code: the stored `short_code` is that custom code, it has at least 1
character, and each of its characters is a letter, digit, hyphen or
underscore.  No upper bound on its length is checked. -/
theorem custom_code_stored (isUri : String → Bool) (encodeUrl : String → String) (requests : List Request)
    (url : Option String) (customCode p h : String) (g : Nat → String) (now : Nat)
    (shortUrl c originalUrl : String) (hcc : customCode ≠ "")
    (hres : (handle isUri encodeUrl (run isUri encodeUrl (initDatabase none) requests)
      (.postShorten url (some customCode) p h g now)).2 = .created shortUrl c originalUrl) :
    c = customCode ∧
      (∃ new : Link, new.short_code = customCode ∧
        (handle isUri encodeUrl (run isUri encodeUrl (initDatabase none) requests)
            (.postShorten url (some customCode) p h g now)).1.links =
          (run isUri encodeUrl (initDatabase none) requests).links ++ [new]) ∧
      1 ≤ customCode.length ∧ ∀ ch ∈ customCode.toList, isCodeChar ch = true := by
  obtain ⟨hurl, hc, -, -⟩ := created_row isUri encodeUrl _ url (some customCode) p h g now shortUrl c
    originalUrl hres
  have hch : chosenCode (run isUri encodeUrl (initDatabase none) requests) (some customCode) g =
      customCode := by
    simp [chosenCode, truthy, hcc]
  rw [hch] at hc
  subst hc
  obtain ⟨new, h1, -, -, -, -, h4, -⟩ := created_row_filter isUri encodeUrl _ url (some c) p h g now
    shortUrl c originalUrl hres
  refine ⟨rfl, ⟨new, h1, h4⟩, length_pos_of_ne_empty c hcc, ?_⟩
  by_cases hp : codePatternTest c = true
  · exact ((codePatternTest_iff c).1 hp).2
  · exfalso
    subst hurl
    by_cases hv : originalUrl ≠ "" ∧ isUri originalUrl = true
    · have : handle isUri encodeUrl (run isUri encodeUrl (initDatabase none) requests)
          (.postShorten (some originalUrl) (some c) p h g now) =
          (run isUri encodeUrl (initDatabase none) requests, .error 400
            "Custom code can only contain letters, numbers, dashes, and underscores") := by
        simp [handle, postShorten, truthy, hv.1, hv.2, hcc, hp]
      rw [this] at hres
      cases hres
    · have : handle isUri encodeUrl (run isUri encodeUrl (initDatabase none) requests)
          (.postShorten (some originalUrl) (some c) p h g now) =
          (run isUri encodeUrl (initDatabase none) requests, .error 400 "Invalid URL provided") := by
        simp only [handle, postShorten, truthy]
        rw [not_and_or] at hv
        rcases hv with hv | hv
        · simp at hv
          simp [hv]
        · simp at hv
          simp [hv]
      rw [this] at hres
      cases hres

/-- C7, as stated, fails: on the empty table a custom code of 65 allowed
characters is accepted and stored, so a stored `short_code` has more than 64
characters. -/
theorem custom_code_65_accepted :
    (handle schemeCheck express.encodeUrl (initDatabase none) (customRequest code65 7)).2 =
        .created ("http://localhost:3000/" ++ code65) code65 "https://example.com/a/b?x=1" ∧
      (handle schemeCheck express.encodeUrl (initDatabase none) (customRequest code65 7)).1.links.map
        (fun l => l.short_code.length) = [65] ∧
      ¬ (65 ≤ 64) := by
  decide

/-! ### Listing -/

theorem getLinks_eq (db : Db) : getLinks db = (db, .links (recentRows db)) := by
  unfold getLinks selectRecent recentRows
  cases (db.links.insertionSort newerOrSame).take 100 <;> rfl

/-- Three Links created one after the other on the empty table. -/
theorem three_created (isUri : String → Bool) (encodeUrl : String → String) (u1 u2 u3 cc1 cc2 cc3 : Option String)
    (p1 p2 p3 h1 h2 h3 : String) (g1 g2 g3 : Nat → String) (t1 t2 t3 : Nat)
    (s1 s2 s3 c1 c2 c3 o1 o2 o3 : String)
    (hres : responses isUri encodeUrl (initDatabase none)
      [.postShorten u1 cc1 p1 h1 g1 t1, .postShorten u2 cc2 p2 h2 g2 t2,
        .postShorten u3 cc3 p3 h3 g3 t3] =
      [.created s1 c1 o1, .created s2 c2 o2, .created s3 c3 o3]) :
    (run isUri encodeUrl (initDatabase none)
      [.postShorten u1 cc1 p1 h1 g1 t1, .postShorten u2 cc2 p2 h2 g2 t2,
        .postShorten u3 cc3 p3 h3 g3 t3]).links =
      [{ id := 1, short_code := c1, original_url := o1, created_at := t1, clicks := 0 },
       { id := 2, short_code := c2, original_url := o2, created_at := t2, clicks := 0 },
       { id := 3, short_code := c3, original_url := o3, created_at := t3, clicks := 0 }] := by
  simp only [responses, List.cons.injEq, and_true] at hres
  obtain ⟨hr1, hr2, hr3⟩ := hres
  obtain ⟨-, -, -, e1⟩ := created_row isUri encodeUrl _ u1 cc1 p1 h1 g1 t1 s1 c1 o1 hr1
  rw [e1] at hr2 hr3
  obtain ⟨-, -, -, e2⟩ := created_row isUri encodeUrl _ u2 cc2 p2 h2 g2 t2 s2 c2 o2 hr2
  rw [e2] at hr3
  obtain ⟨-, -, -, e3⟩ := created_row isUri encodeUrl _ u3 cc3 p3 h3 g3 t3 s3 c3 o3 hr3
  simp only [run]
  rw [e1, e2, e3]
  simp [initDatabase, maxRowid]

/-- C8, as the code has it.  `GET /api/links` leaves the database as it was
and answers the first `min(k, 100)` rows of the `k` rows of the table sorted
by `created_at`, larger first: the answer followed by the rows left out is a
rearrangement of the table in which no row comes before a row with a larger
`created_at`.  On the empty table the answer is the empty sequence.  After
three Links created on the empty table at seconds `t1 < t2 < t3` the answer
is exactly these three, last created first. -/
theorem links_listing (isUri : String → Bool) (encodeUrl : String → String) (db : Db) :
    (handle isUri encodeUrl db .getLinks).1 = db ∧
      (∃ out rest, (handle isUri encodeUrl db .getLinks).2 = .links out ∧
        out.length = min db.links.length 100 ∧
        List.Perm (out ++ rest) db.links ∧
        (out ++ rest).Pairwise (fun a b => b.created_at ≤ a.created_at) ∧
        (∀ a ∈ out, ∀ b ∈ rest, b.created_at ≤ a.created_at) ∧
        out.Pairwise (fun a b => b.created_at ≤ a.created_at)) ∧
      (db.links = [] → (handle isUri encodeUrl db .getLinks).2 = .links []) ∧
      (∀ (u1 u2 u3 cc1 cc2 cc3 : Option String) (p1 p2 p3 h1 h2 h3 : String)
        (g1 g2 g3 : Nat → String) (t1 t2 t3 : Nat) (s1 s2 s3 c1 c2 c3 o1 o2 o3 : String),
        responses isUri encodeUrl (initDatabase none)
          [.postShorten u1 cc1 p1 h1 g1 t1, .postShorten u2 cc2 p2 h2 g2 t2,
            .postShorten u3 cc3 p3 h3 g3 t3] =
          [.created s1 c1 o1, .created s2 c2 o2, .created s3 c3 o3] →
        t1 < t2 → t2 < t3 →
        (handle isUri encodeUrl (run isUri encodeUrl (initDatabase none)
          [.postShorten u1 cc1 p1 h1 g1 t1, .postShorten u2 cc2 p2 h2 g2 t2,
            .postShorten u3 cc3 p3 h3 g3 t3]) .getLinks).2 =
          .links
            [{ id := 3, short_code := c3, original_url := o3, created_at := t3, clicks := 0 },
             { id := 2, short_code := c2, original_url := o2, created_at := t2, clicks := 0 },
             { id := 1, short_code := c1, original_url := o1, created_at := t1,
               clicks := 0 }]) := by
  simp only [handle, getLinks_eq]
  have hsorted : (db.links.insertionSort newerOrSame).Pairwise
      (fun a b => b.created_at ≤ a.created_at) := List.sorted_insertionSort newerOrSame db.links
  have hsplit : recentRows db ++ (db.links.insertionSort newerOrSame).drop 100 =
      db.links.insertionSort newerOrSame := List.take_append_drop 100 _
  refine ⟨trivial, ⟨recentRows db, (db.links.insertionSort newerOrSame).drop 100, rfl, ?_, ?_,
    ?_, ?_, ?_⟩, ?_, ?_⟩
  · unfold recentRows
    rw [List.length_take, List.length_insertionSort, Nat.min_comm]
  · rw [hsplit]
    exact List.perm_insertionSort newerOrSame db.links
  · rw [hsplit]
    exact hsorted
  · rw [← hsplit] at hsorted
    intro a ha b hb
    exact (List.pairwise_append.1 hsorted).2.2 a ha b hb
  · rw [← hsplit] at hsorted
    exact (List.pairwise_append.1 hsorted).1
  · intro hnil
    simp [recentRows, hnil]
  · intro u1 u2 u3 cc1 cc2 cc3 p1 p2 p3 h1 h2 h3 g1 g2 g3 t1 t2 t3 s1 s2 s3 c1 c2 c3 o1 o2 o3
      hres h12 h23
    have hrows := three_created isUri encodeUrl u1 u2 u3 cc1 cc2 cc3 p1 p2 p3 h1 h2 h3 g1 g2 g3 t1 t2 t3
      s1 s2 s3 c1 c2 c3 o1 o2 o3 hres
    unfold recentRows
    rw [hrows]
    have e1 : ¬ (t3 ≤ t2) := by omega
    have e2 : ¬ (t2 ≤ t1) := by omega
    have e3 : ¬ (t3 ≤ t1) := by omega
    simp [List.insertionSort, List.orderedInsert, newerOrSame, e1, e2, e3]

/-- C8, as stated, fails: three Links created one after the other on the empty
table within the same second (codes `a`, `b`, `c` in this order) are answered
by `GET /api/links` oldest first (`a`, `b`, `c`), not in descending creation
order (`c`, `b`, `a`). -/
theorem links_same_second_oldest_first :
    responses schemeCheck express.encodeUrl (initDatabase none)
        [customRequest "a" 5, customRequest "b" 5, customRequest "c" 5] =
      [.created "http://localhost:3000/a" "a" "https://example.com/a/b?x=1",
       .created "http://localhost:3000/b" "b" "https://example.com/a/b?x=1",
       .created "http://localhost:3000/c" "c" "https://example.com/a/b?x=1"] ∧
    (handle schemeCheck express.encodeUrl (run schemeCheck express.encodeUrl (initDatabase none)
        [customRequest "a" 5, customRequest "b" 5, customRequest "c" 5]) .getLinks).2 =
      .links
        [{ id := 1, short_code := "a", original_url := "https://example.com/a/b?x=1",
           created_at := 5, clicks := 0 },
         { id := 2, short_code := "b", original_url := "https://example.com/a/b?x=1",
           created_at := 5, clicks := 0 },
         { id := 3, short_code := "c", original_url := "https://example.com/a/b?x=1",
           created_at := 5, clicks := 0 }] ∧
    (handle schemeCheck express.encodeUrl (run schemeCheck express.encodeUrl (initDatabase none)
        [customRequest "a" 5, customRequest "b" 5, customRequest "c" 5]) .getLinks).2 ≠
      .links
        [{ id := 3, short_code := "c", original_url := "https://example.com/a/b?x=1",
           created_at := 5, clicks := 0 },
         { id := 2, short_code := "b", original_url := "https://example.com/a/b?x=1",
           created_at := 5, clicks := 0 },
         { id := 1, short_code := "a", original_url := "https://example.com/a/b?x=1",
           created_at := 5, clicks := 0 }] := by
  decide

/-! ### The properties at concrete requests -/

/-- Round trip at `https://example.com/a/b?x=1` without a custom code, the
generator drawing `Ab3_-x`, on the empty table: the URL is accepted, is left
as it is by `encodeUrl`, and `GET /Ab3_-x` redirects to exactly it. -/
theorem shorten_round_trip_witness :
    validUrl.isUri "https://example.com/a/b?x=1" = true ∧
      express.encodeUrl "https://example.com/a/b?x=1" = "https://example.com/a/b?x=1" ∧
      (handle validUrl.isUri express.encodeUrl (initDatabase none)
        (autoRequest "Ab3_-x" 7)).2 =
        .created "http://localhost:3000/Ab3_-x" "Ab3_-x" "https://example.com/a/b?x=1" ∧
      (handle validUrl.isUri express.encodeUrl
        (handle validUrl.isUri express.encodeUrl (initDatabase none)
          (autoRequest "Ab3_-x" 7)).1
        (.getRedirect "Ab3_-x")).2 = .redirect "https://example.com/a/b?x=1" :=
  ⟨by decide, by decide, by decide,
    (shorten_round_trip validUrl.isUri express.encodeUrl (initDatabase none)
      "https://example.com/a/b?x=1" none "http" "localhost:3000" (constGen "Ab3_-x") 7
      "http://localhost:3000/Ab3_-x" "Ab3_-x" "https://example.com/a/b?x=1" (by decide)
      (by decide) (by decide)).2.2.2.2 (by decide)⟩

/-- Click counting at a concrete run: of five requests after the creation of
`abc`, two are `GET /abc`; a lookup then returns the Link with `clicks = 2`. -/
theorem click_count_exact_witness :
    findByCode (run schemeCheck express.encodeUrl (handle schemeCheck express.encodeUrl (initDatabase none)
        (customRequest "abc" 3)).1
        [.getRedirect "abc", .getStats "abc", .getRedirect "zzz", .getLinks,
          .getRedirect "abc"]) "abc" =
      some { id := 1, short_code := "abc", original_url := "https://example.com/a/b?x=1",
             created_at := 3, clicks := 2 } := by
  obtain ⟨l0, h1, -, h3⟩ := click_count_exact schemeCheck express.encodeUrl (initDatabase none)
    (some "https://example.com/a/b?x=1") (some "abc") "http" "localhost:3000"
    (constGen "Ab3_-x") 3 "http://localhost:3000/abc" "abc" "https://example.com/a/b?x=1"
    (by decide)
  have h0 : findByCode (handle schemeCheck express.encodeUrl (initDatabase none)
      (.postShorten (some "https://example.com/a/b?x=1") (some "abc") "http" "localhost:3000"
        (constGen "Ab3_-x") 3)).1 "abc" =
      some { id := 1, short_code := "abc", original_url := "https://example.com/a/b?x=1",
             created_at := 3, clicks := 0 } := by decide
  rw [h0] at h1
  have e := Option.some.inj h1
  subst e
  exact (h3 [.getRedirect "abc", .getStats "abc", .getRedirect "zzz", .getLinks,
    .getRedirect "abc"] 2 (by decide)).1

/-- A taken custom code at a concrete request: `abc` is in the table. -/
theorem custom_code_taken_witness :
    handle schemeCheck express.encodeUrl dbWithAbc (customRequest "abc" 9) =
        (dbWithAbc, .error 400 "Custom code already in use") ∧
      (handle schemeCheck express.encodeUrl dbWithAbc (customRequest "abc" 9)).1.links.length = 1 :=
  ⟨(custom_code_taken schemeCheck express.encodeUrl dbWithAbc "https://example.com/a/b?x=1" "abc" "http"
      "localhost:3000" (constGen "Ab3_-x") 9 (by decide) (by decide) (by decide) (by decide)
      (by decide)).1,
    by decide⟩

/-- An unknown code at a concrete request: `nope` is not in the table. -/
theorem redirect_unknown_code_witness :
    "nope" ∉ dbWithAbc.links.map Link.short_code ∧
      (handle schemeCheck express.encodeUrl dbWithAbc (.getRedirect "nope")).2 = .notFoundPage ∧
      (handle schemeCheck express.encodeUrl dbWithAbc (.getRedirect "nope")).2.status = 404 ∧
      (handle schemeCheck express.encodeUrl dbWithAbc (.getRedirect "nope")).1 = dbWithAbc :=
  ⟨by decide, redirect_unknown_code schemeCheck express.encodeUrl dbWithAbc "nope" (by decide)⟩

/-- The character check at the custom code `bad code!`. -/
theorem custom_code_charset_witness :
    (handle schemeCheck express.encodeUrl (initDatabase none) (customRequest "bad code!" 7)).2 =
      .error 400 "Custom code can only contain letters, numbers, dashes, and underscores" :=
  (custom_code_charset schemeCheck express.encodeUrl (initDatabase none) "https://example.com/a/b?x=1"
    "bad code!" "http" "localhost:3000" (constGen "Ab3_-x") 7 (by decide) (by decide)).1.2
    ⟨by decide, ' ', by decide, by decide⟩

/-- A stored custom code at a concrete request: `my-link_1` after `abc`. -/
theorem custom_code_stored_witness :
    (handle schemeCheck express.encodeUrl (run schemeCheck express.encodeUrl (initDatabase none) [customRequest "abc" 3])
        (customRequest "my-link_1" 7)).2 =
        .created "http://localhost:3000/my-link_1" "my-link_1" "https://example.com/a/b?x=1" ∧
      1 ≤ "my-link_1".length ∧ ∀ ch ∈ "my-link_1".toList, isCodeChar ch = true :=
  ⟨by decide,
    (custom_code_stored schemeCheck express.encodeUrl [customRequest "abc" 3]
      (some "https://example.com/a/b?x=1") "my-link_1" "http" "localhost:3000"
      (constGen "Ab3_-x") 7 "http://localhost:3000/my-link_1" "my-link_1"
      "https://example.com/a/b?x=1" (by decide) (by decide)).2.2⟩

/-- Auto-generation at a concrete request whose six draws are all `abc`, which
is in the table: status 500 and the database unchanged. -/
theorem auto_generation_bounded_retry_witness :
    (∀ i, i < 6 → codeInUse dbWithAbc (constGen "abc" i)) ∧
      (handle schemeCheck express.encodeUrl dbWithAbc (autoRequest "abc" 9)).2 =
        .error 500 "Failed to create shortlink" ∧
      (handle schemeCheck express.encodeUrl dbWithAbc (autoRequest "abc" 9)).1 = dbWithAbc :=
  ⟨by decide,
    (auto_generation_bounded_retry schemeCheck express.encodeUrl dbWithAbc "https://example.com/a/b?x=1" none
      "http" "localhost:3000" (constGen "abc") 9 (by decide) (by decide)
      (Or.inl rfl)).2.2.2.2.2.1.2 (by decide),
    ((auto_generation_bounded_retry schemeCheck express.encodeUrl dbWithAbc "https://example.com/a/b?x=1" none
      "http" "localhost:3000" (constGen "abc") 9 (by decide) (by decide)
      (Or.inl rfl)).2.2.2.2.2.2 (by decide)).2⟩

end Shortlink
